import Mathlib

/-!
Shallow embedding of the KubeVela appfile renderer core: the CUE document
path resolver and printer (package sets), the appfile loading and rendering
pipeline (package appfile), and the appfile validator (package application,
modelled from the specification since only its test appears in the sources).
External collaborators (the CUE formatter, the configuration store, the
template evaluator, YAML and JSON parsers) are passed in as function
parameters, mirroring the source code boundaries.
-/

namespace Spec2Proof

/-! ## Document path resolver (package sets) -/

/-- Relative position attached to an expression node, mirroring the position
set by `ast.SetRelPos`. Only the two values the code uses are modelled. -/
inductive RelPos where
  | original
  | noSpace
deriving DecidableEq

/-- A field label of the CUE syntax tree. `ident` models `*ast.Ident`; the
`strLabel` constructor stands for every label that is not an identifier
(quoted or computed labels), which `labelStr` stringifies to the empty
string. -/
inductive Label where
  | ident (nm : String)
  | strLabel (s : String)
deriving DecidableEq

/-- The CUE syntax tree nodes the resolver and printer dispatch on:
`file` models `*ast.File` (declarations of a whole document), `structLit`
models `*ast.StructLit`, `listLit` models `*ast.ListLit`, `basicLit` and
`identExpr` model scalar expressions, `field` models `*ast.Field` whose
value may be absent (a Go `nil`), and `embedDecl` models `*ast.EmbedDecl`.
Expression constructors carry the relative position of their first token. -/
inductive Node where
  | file (decls : List Node)
  | structLit (relPos : RelPos) (elts : List Node)
  | listLit (relPos : RelPos) (elts : List Node)
  | basicLit (relPos : RelPos) (value : String)
  | identExpr (relPos : RelPos) (nm : String)
  | field (label : Label) (value : Option Node)
  | embedDecl (e : Node)

/-- The only error the resolver produces (`notFoundErr` in the source). -/
inductive LookupErr where
  | notFound
deriving DecidableEq

/-- `labelStr`: the declared name of an identifier label; every other label
kind is stringified to the empty string. -/
def labelStr : Label → String
  | .ident nm => nm
  | _ => ""

/-- `lookField`: if the node is a field whose label stringifies to `key`,
its (possibly absent) value; otherwise nothing. -/
def lookField : Node → String → Option Node
  | .field label value, key => if labelStr label = key then value else none
  | _, _ => none

/-- The scan of the declaration list inside `lookUp`: the first declaration
for which `lookField` yields a node wins (the loop returns at the first
non-nil result). -/
def firstField : List Node → String → Option Node
  | [], _ => none
  | d :: ds, key =>
    match lookField d key with
    | some v => some v
    | none => firstField ds key

/-- The scan of the element list of an ordered list inside `lookUp`: the
element whose position, rendered in decimal by `strconv.Itoa`, equals the
segment (`strconv.Itoa(index) == key`). -/
def listIdx : List Node → Nat → String → Option Node
  | [], _, _ => none
  | e :: es, i, key => if Nat.repr i = key then some e else listIdx es (i + 1) key

/-- `lookUp`: resolve a path through the syntax tree. An empty path returns
the node itself; a file or struct literal is searched by field name, an
ordered list by decimal position, and every other node kind with a
remaining path yields the not-found error. -/
def lookUp : Node → List String → Except LookupErr Node
  | node, [] => .ok node
  | node, key :: rest =>
    match node with
    | .file decls =>
      match firstField decls key with
      | some v => lookUp v rest
      | none => .error .notFound
    | .listLit _ elts =>
      match listIdx elts 0 key with
      | some e => lookUp e rest
      | none => .error .notFound
    | .structLit _ elts =>
      match firstField elts key with
      | some v => lookUp v rest
      | none => .error .notFound
    | _ => .error .notFound

/-! ## Document printer (package sets) -/

/-- `ast.SetRelPos`: set the relative position of the first token of an
expression. Positions are only tracked on expression nodes. -/
def setRelPos : Node → RelPos → Node
  | .structLit _ es, p => .structLit p es
  | .listLit _ es, p => .listLit p es
  | .basicLit _ s, p => .basicLit p s
  | .identExpr _ s, p => .identExpr p s
  | n, _ => n

/-- Result of `toFile`: either a whole document (possibly absent, for a Go
`nil` input) or a fatal programming-contract violation. -/
inductive ToFileRes where
  | file (f : Option Node)
  | panicked (msg : String)

/-- The message of the contract violation in `toFile`. The Go code formats
the dynamic type of the offending node into the message; the model keeps
the fixed prefix. -/
def unsupportedMsg : String := "Unsupported node type"

/-- `toFile`: wrap a node into a whole-document shape. A struct literal
contributes its elements as the document declarations; any other
expression is embedded as a single declaration with no leading whitespace;
a file passes through; a nil input yields a nil document; every other node
kind is a contract violation. -/
def toFile : Option Node → ToFileRes
  | none => .file none
  | some (.structLit _ elts) => .file (some (.file elts))
  | some (.listLit rp elts) =>
      .file (some (.file [.embedDecl (setRelPos (.listLit rp elts) .noSpace)]))
  | some (.basicLit rp s) =>
      .file (some (.file [.embedDecl (setRelPos (.basicLit rp s) .noSpace)]))
  | some (.identExpr rp s) =>
      .file (some (.file [.embedDecl (setRelPos (.identExpr rp s) .noSpace)]))
  | some (.file ds) => .file (some (.file ds))
  | some _ => .panicked unsupportedMsg

/-- Is the node a struct literal (matched by the `*ast.StructLit` case)? -/
def isStructLitN : Node → Bool
  | .structLit _ _ => true
  | _ => false

/-- Is the node an expression in the sense of the Go type switch case
`ast.Expr` (struct literals included, since `*ast.StructLit` is an
`ast.Expr` even though an earlier case captures it)? -/
def isExprN : Node → Bool
  | .structLit _ _ => true
  | .listLit _ _ => true
  | .basicLit _ _ => true
  | .identExpr _ _ => true
  | _ => false

/-- Is the node a whole document (`*ast.File`)? -/
def isFileN : Node → Bool
  | .file _ => true
  | _ => false

/-- The relative position of an expression node, if it carries one. -/
def relPosOf : Node → Option RelPos
  | .structLit p _ => some p
  | .listLit p _ => some p
  | .basicLit p _ => some p
  | .identExpr p _ => some p
  | _ => none

/-- `filepath.Base`: the last element of a path, after stripping trailing
separators; `"."` for the empty path and `"/"` for a path of only
separators. -/
def filepathBase (p : String) : String :=
  if p = "" then "."
  else
    let revStripped := p.toList.reverse.dropWhile (fun c => c = '/')
    if revStripped = [] then "/"
    else String.mk ((revStripped.takeWhile (fun c => c ≠ '/')).reverse)

/-- The state threaded through the `format` closure of `print`: the buffer
`w` that becomes the returned string, the text printed to the process
standard output, and the separator flag `useSep`. -/
structure PrintSt where
  w : String
  stdout : String
  useSep : Bool
deriving DecidableEq

/-- The header lines of one call of the `format` closure inside `print`:
a unit carrying a source identity gets a leading comment line with the
base name written into the buffer; otherwise, after the first unit, a
`// ---` separator line is printed to the standard output. -/
def formatHeader (st : PrintSt) (nm : String) : PrintSt :=
  if nm ≠ "" then { st with w := st.w ++ "// " ++ filepathBase nm ++ "\n" }
  else if st.useSep then { st with stdout := st.stdout ++ "// ---\n" }
  else st

/-- One call of the `format` closure proper: emit the header, mark the
separator flag, wrap the unit with `toFile`, render it through the
external CUE formatter `fmtNode`, and append the block to the buffer. A
contract violation in `toFile` is modelled as an error result. -/
def formatOne (fmtNode : Option Node → Except String String)
    (st : PrintSt) (nm : String) (n : Node) : Except String PrintSt :=
  let st2 := { formatHeader st nm with useSep := true }
  match toFile (some n) with
  | .panicked m => .error m
  | .file f =>
    match fmtNode f with
    | .error e => .error e
    | .ok b => .ok { st2 with w := st2.w ++ b }

/-- Printing a sequence of top-level syntactic units through the `format`
closure, threading the printer state. -/
def printUnits (fmtNode : Option Node → Except String String) :
    List (String × Node) → PrintSt → Except String PrintSt
  | [], st => .ok st
  | (nm, n) :: rest, st =>
    match formatOne fmtNode st nm n with
    | .error e => .error e
    | .ok st2 => printUnits fmtNode rest st2

/-- `print`: format the (already evaluated) syntax of a value as a single
nameless unit and return the buffer contents. -/
def printCue (fmtNode : Option Node → Except String String) (n : Node) :
    Except String String :=
  match printUnits fmtNode [("", n)] ⟨"", "", false⟩ with
  | .error e => .error e
  | .ok st => .ok st.w

/-! ## Appfile loading (package appfile) -/

/-- The scan inside `filepath.Ext`: walk the path backwards; stop at a
separator with no extension, or return everything from the last dot of the
final element. `acc` holds the characters already passed, in forward
order. -/
def extScan : List Char → List Char → String
  | _, [] => ""
  | acc, c :: rest =>
    if c = '/' then ""
    else if c = '.' then String.mk ('.' :: acc)
    else extScan (c :: acc) rest

/-- `filepath.Ext`: the suffix of the path beginning at the final dot in
the final path element; empty if there is no dot. -/
def filepathExt (p : String) : String := extScan [] p.toList.reverse

/-- The external parsing collaborators of `LoadFromFile`: the YAML
unmarshaller, the JSON-to-YAML converter (`yaml.JSONToYAML`) and the JSON
validity test (`json.Valid`). -/
structure ParserOps (α : Type) where
  yamlUnmarshal : String → Except String α
  jsonToYAML : String → Except String String
  jsonValid : String → Bool

/-- `JSONToYaml`: convert a JSON document to YAML, then unmarshal the
result as YAML. -/
def JSONToYaml {α : Type} (P : ParserOps α) (data : String) : Except String α :=
  match P.jsonToYAML data with
  | .error e => .error e
  | .ok j => P.yamlUnmarshal j

/-- `LoadFromFile` (the format dispatch on the already-read bytes): a
`.yaml`/`.yml` extension parses as YAML, a `.json` extension parses as
JSON converted to YAML, and any other extension auto-detects from content,
taking the JSON route exactly when the bytes are valid JSON text. -/
def LoadFromFile {α : Type} (P : ParserOps α) (filename content : String) :
    Except String α :=
  let ext := filepathExt filename
  if ext = ".yaml" ∨ ext = ".yml" then P.yamlUnmarshal content
  else if ext = ".json" then JSONToYaml P content
  else if P.jsonValid content then JSONToYaml P content
  else P.yamlUnmarshal content

/-- `f` ends in the literal suffix `s`. -/
def hasSuffix (f s : String) : Prop := ∃ g : String, f = g ++ s

/-! ## Validator (package application)

`Validate` itself is not among the given sources; only its unit test
`TestApplication` is. The validator below is therefore modelled from the
specification (rules checked in order: non-empty name, at least one
service, every trait-named field a mapping) and checked against the
expectations of that test. -/

/-- A value of the untyped service mapping: a nested mapping, a string, a
number or a boolean. -/
inductive Value where
  | vmap (entries : List (String × Value))
  | vstr (s : String)
  | vnum (n : Int)
  | vbool (b : Bool)

/-- Is the value a mapping? -/
def isMap : Value → Bool
  | .vmap _ => true
  | _ => false

/-- A service descriptor: an ordered mapping of field name to value. -/
abbrev ServiceV : Type := List (String × Value)

/-- The Application Descriptor as the validator sees it: a name and the
name-keyed services mapping (in enumeration order). -/
structure AppFileV where
  name : String
  services : List (String × ServiceV)

/-- A single-quote character, written without an apostrophe token. -/
def squote : String := String.singleton (Char.ofNat 39)

/-- The validation error for a trait-named field bound to a non-mapping
value: the trait name, then the service name wrapped in single quotes. -/
def traitErrMsg (traitName svcName : String) : String :=
  "trait " ++ traitName ++ " in " ++ squote ++ svcName ++ squote ++ " must be map"

/-- Modelled from the spec: the per-service part of `Validate` (not in the
given sources), scanning the fields of one service for the first field
whose name matches a known trait capability but whose value is not a
mapping. -/
def svcTraitErr (traits : List String) (svcName : String) :
    List (String × Value) → Option String
  | [] => none
  | (fname, v) :: rest =>
    if fname ∈ traits ∧ isMap v = false then some (traitErrMsg fname svcName)
    else svcTraitErr traits svcName rest

/-- Modelled from the spec: the services scan of `Validate` (not in the
given sources), reporting the first trait-field violation over all
services. -/
def servicesTraitErr (traits : List String) :
    List (String × ServiceV) → Option String
  | [] => none
  | (svcName, svc) :: rest =>
    match svcTraitErr traits svcName svc with
    | some e => some e
    | none => servicesTraitErr traits rest

/-- Modelled from the spec: `Validate` (package application; not in the
given sources). Rules in order, first failure short-circuiting: the name
must be non-empty, the services mapping must have at least one entry, and
every service field whose name matches a known trait capability must have
a mapping value. -/
def validate (traits : List String) (app : AppFileV) : Option String :=
  if app.name = "" then some "name is required"
  else if app.services.length = 0 then some "at least one service is required"
  else servicesTraitErr traits app.services

/-! ## Renderer (package appfile, `BuildOAMApplication`) -/

/-- `types.EnvMeta`, reduced to the fields the renderer reads. -/
structure EnvMeta where
  name : String
  nspace : String
deriving DecidableEq

/-- A service as the renderer consumes it. `GetUserConfigName` is not in
the given sources; the declared user config name is modelled as a field
(empty when the service references no external configuration set). -/
structure Service where
  userConfigName : String
deriving DecidableEq

/-- A rendered per-service component (`v1alpha2.ApplicationComponent`,
reduced to the fields the given sources touch): its name, opaque settings,
and the raw scopes extension set by the health-scope pass (absent until
set). -/
structure ApplicationComponent where
  name : String
  settings : String
  scopes : Option String
deriving DecidableEq

/-- A typed reference held by a health scope
(`v1alpha1.TypedReference`). -/
structure TypedReference where
  apiVersion : String
  kind : String
  name : String
deriving DecidableEq

/-- `v1alpha2.HealthScope`, reduced to the fields the given sources set. -/
structure HealthScope where
  apiVersion : String
  kind : String
  name : String
  nspace : String
  workloadReferences : List TypedReference
deriving DecidableEq

/-- The rendered application object (`v1alpha2.Application`, reduced to
the fields the given sources set). -/
structure Application where
  name : String
  nspace : String
  apiVersion : String
  kind : String
  components : List ApplicationComponent
deriving DecidableEq

/-- A generated configuration object (a ConfigMap), reduced to a name and
its decoded data. -/
structure ConfigMapObj where
  name : String
  data : List (String × String)
deriving DecidableEq

/-- An assistant object emitted alongside the application: a generated
configuration object or the cluster-wide health scope. -/
inductive OamObject where
  | configMap (cm : ConfigMapObj)
  | healthScope (hs : HealthScope)
deriving DecidableEq

/-- Is the assistant object the health scope? -/
def isHealthObj : OamObject → Bool
  | .healthScope _ => true
  | _ => false

/-- The group/version string of the health scope
(`v1alpha2.HealthScopeGroupVersionKind.GroupVersion().String()`). -/
def healthScopeAPIVersion : String := "core.oam.dev/v1alpha2"

/-- `v1alpha2.HealthScopeKind`. -/
def healthScopeKind : String := "HealthScope"

/-- The group/version string of the application object. -/
def applicationAPIVersion : String := "core.oam.dev/v1alpha2"

/-- The kind of the application object. -/
def applicationKind : String := "Application"

/-- `FormatDefaultHealthScopeName`: the deterministic name of the default
health scope. -/
def FormatDefaultHealthScopeName (appName : String) : String :=
  appName ++ "-default-health"

/-- The raw scopes extension written onto every component: the JSON
marshalling of the single-entry map from the health-scope definition name
to the health scope name. -/
def scopeRaw (healthName : String) : String :=
  "\x7b\"healthscopes.core.oam.dev\":\"" ++ healthName ++ "\"\x7d"

/-- `addDefaultHealthScopeToApplication`: build the default health scope
(with an empty workload-reference list) for the application, and point the
scopes extension of every component at it by name. The Go function mutates
the application in place and returns the scope; the model returns both. -/
def addDefaultHealthScopeToApplication (app : Application) :
    Application × HealthScope :=
  let health : HealthScope :=
    { apiVersion := healthScopeAPIVersion
      kind := healthScopeKind
      name := FormatDefaultHealthScopeName app.name
      nspace := app.nspace
      workloadReferences := [] }
  let newComps :=
    app.components.map (fun c => { c with scopes := some (scopeRaw health.name) })
  ({ app with components := newComps }, health)

/-- The external collaborators consulted while rendering one service: the
configuration store (`configGetter.GetConfigData`), the configuration
decoder (`config.DecodeConfigFormat`), the ConfigMap materializer
(`config.ToConfigMap`), the generated ConfigMap name
(`config.GenConfigMapName`), and the per-service component renderer
(`Service.RenderServiceToApplicationComponent`, with the template manager
already applied). -/
structure RenderCtx where
  getConfigData : String → String → Except String String
  decodeConfigFormat : String → Except String (List (String × String))
  toConfigMap : String → String → List (String × String) → Except String ConfigMapObj
  genConfigMapName : String → String → String → String
  renderComponent : String → Service → Except String ApplicationComponent

/-- The configuration branch of the per-service loop body of
`BuildOAMApplication`: when the service names a user configuration set,
fetch it, decode it, and materialize the generated ConfigMap; otherwise
contribute no assistant object. -/
def renderServiceConfig (ctx : RenderCtx) (envName appName svcName : String)
    (svc : Service) : Except String (List OamObject) :=
  if svc.userConfigName = "" then .ok []
  else
    match ctx.getConfigData svc.userConfigName envName with
    | .error e => .error e
    | .ok configData =>
      match ctx.decodeConfigFormat configData with
      | .error e => .error e
      | .ok decodedData =>
        match ctx.toConfigMap (ctx.genConfigMapName appName svcName svc.userConfigName)
            envName decodedData with
        | .error e => .error e
        | .ok cm => .ok [OamObject.configMap cm]

/-- The per-service loop of `BuildOAMApplication`, over the enumeration of
the services map: each service contributes its generated configuration
objects and its rendered component, in enumeration order; the first
failure aborts the whole loop. -/
def buildServices (ctx : RenderCtx) (envName appName : String) :
    List (String × Service) → Except String (List OamObject × List ApplicationComponent)
  | [] => .ok ([], [])
  | (svcName, svc) :: rest =>
    match renderServiceConfig ctx envName appName svcName svc with
    | .error e => .error e
    | .ok objs1 =>
      match ctx.renderComponent svcName svc with
      | .error e => .error e
      | .ok comp =>
        match buildServices ctx envName appName rest with
        | .error e => .error e
        | .ok (objs, comps) => .ok (objs1 ++ objs, comp :: comps)

/-- The appfile as the renderer consumes it: the application name and the
services map in the enumeration order produced by ranging over the Go map
returned by `GetServices` (an order the Go language does not fix). -/
structure AppFileM where
  name : String
  services : List (String × Service)
deriving DecidableEq

/-- `BuildOAMApplication`: render the appfile into the application object
plus its assistant objects. The application carries the environment
namespace and the appfile name; the components are collected per service;
afterwards the default health scope is synthesized, every component is
pointed at it, and the scope is appended to the assistant objects. -/
def BuildOAMApplication (ctx : RenderCtx) (env : EnvMeta) (af : AppFileM) :
    Except String (Application × List OamObject) :=
  match buildServices ctx env.name af.name af.services with
  | .error e => .error e
  | .ok (objs, comps) =>
    let servApp : Application :=
      { name := af.name
        nspace := env.nspace
        apiVersion := applicationAPIVersion
        kind := applicationKind
        components := comps }
    let res := addDefaultHealthScopeToApplication servApp
    .ok (res.1, objs ++ [OamObject.healthScope res.2])

/-- One service fails to render: its configuration branch fails (store
fetch, decoding, or ConfigMap materialization) or its component rendering
fails. -/
def serviceRenderFails (ctx : RenderCtx) (envName appName svcName : String)
    (svc : Service) : Prop :=
  (∃ e, renderServiceConfig ctx envName appName svcName svc = Except.error e)
  ∨ (∃ e, ctx.renderComponent svcName svc = Except.error e)

/-! ## Auxiliary notions used only to state claims -/

/-- Is the node of a kind other than record/file, ordered list, or struct
literal (the kinds the resolver dispatches on)? -/
def nodeKindOther : Node → Bool
  | .file _ => false
  | .listLit _ _ => false
  | .structLit _ _ => false
  | _ => true

/-- Modelled from the spec: parsing a path segment "as a base-10
non-negative integer" (the wording of the path-resolution contract), to be
compared with the positional match the code actually performs. Digits are
accumulated most-significant first; any non-digit character fails. -/
def parseDec : List Char → Nat → Option Nat
  | [], acc => some acc
  | c :: cs, acc =>
    if '0'.toNat ≤ c.toNat ∧ c.toNat ≤ '9'.toNat then
      parseDec cs (acc * 10 + (c.toNat - '0'.toNat))
    else none

/-- Modelled from the spec: a path segment parses as a base-10 non-negative
integer when it is non-empty and consists of decimal digits. -/
def parseBase10 (s : String) : Option Nat :=
  match s.toList with
  | [] => none
  | c :: cs => parseDec (c :: cs) 0

/-- Does `pat` start the character list? -/
def startsWithL : List Char → List Char → Bool
  | [], _ => true
  | _ :: _, [] => false
  | p :: ps, c :: cs => p = c && startsWithL ps cs

/-- Does `pat` occur somewhere in the character list? -/
def hasSubL (pat : List Char) : List Char → Bool
  | [] => pat.isEmpty
  | c :: cs => startsWithL pat (c :: cs) || hasSubL pat cs

/-- Does the pattern occur as a contiguous substring of `s`? -/
def strContains (s pat : String) : Bool := hasSubL pat.toList s.toList

/-- The component-name projection of a render result (empty on error);
used to compare render results structurally. -/
def builtNames (r : Except String (Application × List OamObject)) : List String :=
  match r with
  | .error _ => []
  | .ok (app, _) => app.components.map (fun c => c.name)

/-! ## Demonstration inputs shared by the concrete checks -/

/-- A concrete scalar node. -/
def nodeA : Node := Node.basicLit RelPos.original "a"

/-- A second concrete scalar node. -/
def nodeB : Node := Node.basicLit RelPos.original "b"

/-- A formatter stub standing in for the external CUE formatter: every
document formats to the fixed block `out` followed by a newline. -/
def fmtDemo : Option Node → Except String String := fun _ => .ok "out\n"

/-- A service with no user configuration reference. -/
def svcDemo : Service := { userConfigName := "" }

/-- A service referencing the user configuration set `cfg`. -/
def svcCfg : Service := { userConfigName := "cfg" }

/-- A concrete environment. -/
def envDemo : EnvMeta := { name := "default", nspace := "default-ns" }

/-- Concrete, everywhere-succeeding collaborators for the renderer. -/
def ctxDemo : RenderCtx :=
  { getConfigData := fun _ _ => .ok "k=v"
    decodeConfigFormat := fun _ => .ok [("k", "v")]
    toConfigMap := fun nm _ d => .ok { name := nm, data := d }
    genConfigMapName := fun a s c => a ++ "-" ++ s ++ "-" ++ c
    renderComponent := fun svcName _ => .ok { name := svcName, settings := "", scopes := none } }

/-- Collaborators whose component renderer always fails. -/
def ctxFail : RenderCtx :=
  { ctxDemo with renderComponent := fun _ _ => .error "render failed" }

/-- A one-service appfile. -/
def afDemo : AppFileM := { name := "myapp", services := [("frontend", svcDemo)] }

/-- Concrete parsing collaborators for the loader. -/
def parserDemo : ParserOps Nat :=
  { yamlUnmarshal := fun s => .ok s.length
    jsonToYAML := fun s => .ok (s ++ "0")
    jsonValid := fun s => s = "1" }

/-! ## Lemmas about the resolver scans -/

/-- If no position of the element list renders (with offset `i0`) to the
segment, the positional scan finds nothing. -/
theorem listIdx_eq_none (elts : List Node) (i0 : Nat) (key : String)
    (h : ∀ j, j < elts.length → Nat.repr (i0 + j) ≠ key) :
    listIdx elts i0 key = none := by
  induction elts generalizing i0 with
  | nil => rfl
  | cons e es ih =>
    have h0 : Nat.repr i0 ≠ key := by
      have := h 0 (by simp)
      simpa using this
    simp only [listIdx, if_neg h0]
    exact ih (i0 + 1) (fun j hj => by
      have := h (j + 1) (by simpa using Nat.succ_lt_succ hj)
      simpa [Nat.add_assoc, Nat.add_comm 1 j] using this)

/-- If position `j` is the first whose decimal rendering (with offset
`i0`) equals the segment, the positional scan returns that element. -/
theorem listIdx_eq_found (elts : List Node) :
    ∀ (i0 j : Nat) (key : String) (h : j < elts.length),
      Nat.repr (i0 + j) = key → (∀ j2, j2 < j → Nat.repr (i0 + j2) ≠ key) →
      listIdx elts i0 key = some (elts.get ⟨j, h⟩) := by
  induction elts with
  | nil =>
    intro i0 j key h _ _
    exact absurd h (by simp)
  | cons e es ih =>
    intro i0 j key h hj hfirst
    cases j with
    | zero =>
      simp only [listIdx]
      rw [if_pos (by simpa using hj)]
      rfl
    | succ j1 =>
      have hne : Nat.repr i0 ≠ key := by
        have := hfirst 0 (Nat.succ_pos j1)
        simpa using this
      simp only [listIdx, if_neg hne]
      have hlen : j1 < es.length := by simpa using Nat.lt_of_succ_lt_succ h
      have hrepr : Nat.repr (i0 + 1 + j1) = key := by
        simpa [Nat.add_assoc, Nat.add_comm 1 j1] using hj
      have hfirst1 : ∀ j2, j2 < j1 → Nat.repr (i0 + 1 + j2) ≠ key := by
        intro j2 hj2
        have := hfirst (j2 + 1) (Nat.succ_lt_succ hj2)
        simpa [Nat.add_assoc, Nat.add_comm 1 j2] using this
      rw [ih (i0 + 1) j1 key hlen hrepr hfirst1]
      rfl

/-- If no declaration yields a field value for the key, the field scan
finds nothing. -/
theorem firstField_eq_none (decls : List Node) (key : String)
    (h : ∀ d ∈ decls, lookField d key = none) :
    firstField decls key = none := by
  induction decls with
  | nil => rfl
  | cons d ds ih =>
    have hd : lookField d key = none := h d (by simp)
    simp only [firstField, hd]
    exact ih (fun d2 hd2 => h d2 (by simp [hd2]))

/-- If every earlier declaration yields nothing and a declaration yields a
field value for the key, the field scan returns that value. -/
theorem firstField_append (pre : List Node) (d0 : Node) (post : List Node)
    (key : String) (v : Node)
    (hpre : ∀ d ∈ pre, lookField d key = none)
    (hd0 : lookField d0 key = some v) :
    firstField (pre ++ d0 :: post) key = some v := by
  induction pre with
  | nil => simp [firstField, hd0]
  | cons d ds ih =>
    have hd : lookField d key = none := hpre d (by simp)
    simp only [List.cons_append, firstField, hd]
    exact ih (fun d2 hd2 => hpre d2 (by simp [hd2]))

/-! ## Claim C5 -/

/-- C5, as stated, is refuted: the segment `01` parses as the base-10
non-negative integer 1, which names an existing element position of a
two-element list (the canonical segment `1` resolves to that element), yet
resolution yields the not-found result, because the code compares the
segment against the canonical decimal rendering of each position. -/
theorem C5_counterexample :
    parseBase10 "01" = some 1
    ∧ lookUp (Node.listLit RelPos.original [nodeA, nodeB]) ["1"] = Except.ok nodeB
    ∧ lookUp (Node.listLit RelPos.original [nodeA, nodeB]) ["01"] =
        Except.error LookupErr.notFound :=
  ⟨by decide, rfl, rfl⟩

/-- C5 (amended): on an ordered list, the first path segment selects the
element whose position, rendered canonically in decimal, equals the
segment (first match wins); if no position renders to the segment —
because the segment is out of range, non-numeric, or a non-canonical
numeral such as one with leading zeros — resolution yields the typed
not-found result. -/
theorem C5_theorem (rp : RelPos) (elts : List Node) (key : String)
    (rest : List String) :
    (∀ (j : Nat) (h : j < elts.length), Nat.repr j = key →
      (∀ j2, j2 < j → Nat.repr j2 ≠ key) →
      lookUp (Node.listLit rp elts) (key :: rest) = lookUp (elts.get ⟨j, h⟩) rest)
    ∧ ((∀ j, j < elts.length → Nat.repr j ≠ key) →
      lookUp (Node.listLit rp elts) (key :: rest) = Except.error LookupErr.notFound) := by
  constructor
  · intro j h hj hfirst
    have hidx := listIdx_eq_found elts 0 j key h (by simpa using hj)
      (fun j2 h2 => by simpa using hfirst j2 h2)
    simp [lookUp, hidx]
  · intro h
    have hidx := listIdx_eq_none elts 0 key (fun j hj => by simpa using h j hj)
    simp [lookUp, hidx]

/-- Witness for C5: the canonical segment `1` resolves position 1 of a
two-element list, and the non-numeric segment `x` yields the not-found
result. -/
theorem C5_witness :
    lookUp (Node.listLit RelPos.original [nodeA, nodeB]) ["1"] = lookUp nodeB []
    ∧ lookUp (Node.listLit RelPos.original [nodeA, nodeB]) ["x"] =
        Except.error LookupErr.notFound :=
  ⟨( C5_theorem RelPos.original [nodeA, nodeB] "1" []).1 1 (by decide) (by decide)
      (by decide),
   ( C5_theorem RelPos.original [nodeA, nodeB] "x" []).2 (by decide)⟩

/-! ## Claim C6 -/

/-- C6: path resolution is total (it is a Lean function, so it never
crashes): a node of any kind other than record/file, ordered list, or
struct literal combined with a non-empty path yields the not-found result;
and when every declaration of a struct literal or file fails the field
probe — in particular when the only matching field has an absent (nil)
value — the walk terminates with the not-found result. A field with an
absent value is skipped by the probe rather than dereferenced. -/
theorem C6_theorem (key : String) (rest : List String) :
    (∀ n : Node, nodeKindOther n = true →
      lookUp n (key :: rest) = Except.error LookupErr.notFound)
    ∧ (∀ rp decls, (∀ d ∈ decls, lookField d key = none) →
      lookUp (Node.structLit rp decls) (key :: rest) = Except.error LookupErr.notFound)
    ∧ (∀ decls, (∀ d ∈ decls, lookField d key = none) →
      lookUp (Node.file decls) (key :: rest) = Except.error LookupErr.notFound)
    ∧ (∀ label, lookField (Node.field label none) key = none) := by
  refine ⟨?_, ?_, ?_, ?_⟩
  · intro n hn
    cases n <;> simp_all [nodeKindOther] <;> rfl
  · intro rp decls h
    have hff := firstField_eq_none decls key h
    simp [lookUp, hff]
  · intro decls h
    have hff := firstField_eq_none decls key h
    simp [lookUp, hff]
  · intro label
    simp [lookField]

/-- Witness for C6: a scalar leaf with a non-empty path, and a struct
literal whose only field matches the key but carries an absent value, both
resolve to the not-found result. -/
theorem C6_witness :
    lookUp nodeA ["k"] = Except.error LookupErr.notFound
    ∧ lookUp (Node.structLit RelPos.original [Node.field (Label.ident "k") none])
        ["k"] = Except.error LookupErr.notFound
    ∧ lookField (Node.field (Label.ident "k") none) "k" = none :=
  ⟨( C6_theorem "k" []).1 nodeA (by decide),
   ( C6_theorem "k" []).2.1 RelPos.original [Node.field (Label.ident "k") none]
     (fun d hd => by
       rw [List.mem_singleton] at hd
       subst hd
       rfl),
   ( C6_theorem "k" []).2.2.2 (Label.ident "k")⟩

/-! ## Claim C10 -/

/-- C10: `labelStr` stringifies every non-identifier label to the empty
string, so on a record/file or struct literal a path whose first segment
is the empty string resolves to the value of the first field carrying a
non-identifier label (provided no earlier declaration matches the empty
key), instead of skipping such fields. -/
theorem C10_theorem (s : String) (rp : RelPos) (pre post : List Node)
    (v : Node) (rest : List String) :
    labelStr (Label.strLabel s) = ""
    ∧ ((∀ d ∈ pre, lookField d "" = none) →
      lookUp (Node.structLit rp (pre ++ Node.field (Label.strLabel s) (some v) :: post))
        ("" :: rest) = lookUp v rest)
    ∧ ((∀ d ∈ pre, lookField d "" = none) →
      lookUp (Node.file (pre ++ Node.field (Label.strLabel s) (some v) :: post))
        ("" :: rest) = lookUp v rest) := by
  have hfv : lookField (Node.field (Label.strLabel s) (some v)) "" = some v := by
    simp [lookField, labelStr]
  refine ⟨rfl, ?_, ?_⟩
  · intro hpre
    have hff := firstField_append pre _ post "" v hpre hfv
    simp [lookUp, hff]
  · intro hpre
    have hff := firstField_append pre _ post "" v hpre hfv
    simp [lookUp, hff]

/-- Witness for C10: in a struct literal whose single field carries the
quoted (non-identifier) label `a-b`, the path consisting of one empty
segment resolves to that field's value. -/
theorem C10_witness :
    lookUp (Node.structLit RelPos.original
        ([] ++ Node.field (Label.strLabel "a-b") (some nodeA) :: [])) [""] =
      lookUp nodeA [] :=
  ( C10_theorem "a-b" RelPos.original [] [] nodeA []).2.1 (fun d hd => by cases hd)

/-! ## Claim C8 -/

/-- C8: a node that is neither a struct literal, nor an expression, nor a
whole document makes the whole-document conversion a fatal
programming-contract violation; a struct literal becomes a document made
of its elements; any other bare expression is embedded into a
single-declaration document with its leading position set to no-space. -/
theorem C8_theorem (n : Node) :
    (isStructLitN n = false → isExprN n = false → isFileN n = false →
      toFile (some n) = ToFileRes.panicked unsupportedMsg)
    ∧ (∀ rp es, n = Node.structLit rp es →
      toFile (some n) = ToFileRes.file (some (Node.file es)))
    ∧ (isExprN n = true → isStructLitN n = false →
      toFile (some n) = ToFileRes.file (some (Node.file
        [Node.embedDecl (setRelPos n RelPos.noSpace)]))
      ∧ relPosOf (setRelPos n RelPos.noSpace) = some RelPos.noSpace) := by
  cases n <;>
    simp [toFile, isStructLitN, isExprN, isFileN, setRelPos, relPosOf]

/-- Witness for C8: a field node (neither expression nor document) is a
contract violation; an empty struct literal becomes the empty document; a
scalar literal is embedded with a no-space leading position. -/
theorem C8_witness :
    toFile (some (Node.field (Label.ident "x") none)) = ToFileRes.panicked unsupportedMsg
    ∧ toFile (some (Node.structLit RelPos.original [])) =
        ToFileRes.file (some (Node.file []))
    ∧ (toFile (some nodeA) = ToFileRes.file (some (Node.file
        [Node.embedDecl (setRelPos nodeA RelPos.noSpace)]))
      ∧ relPosOf (setRelPos nodeA RelPos.noSpace) = some RelPos.noSpace) :=
  ⟨( C8_theorem (Node.field (Label.ident "x") none)).1 rfl rfl rfl,
   ( C8_theorem (Node.structLit RelPos.original [])).2.1 RelPos.original [] rfl,
   ( C8_theorem nodeA).2.2 rfl rfl⟩

/-! ## Claim C7 -/

/-- C7, as stated, is refuted: printing two nameless top-level units in
one call returns the string `out\nout\n` — the two formatted blocks with
no separator between them — while the `// ---` separator line is printed
to the process standard output instead of being included in the returned
string. -/
theorem C7_counterexample :
    printUnits fmtDemo
        [("", Node.structLit RelPos.original []), ("", Node.structLit RelPos.original [])]
        { w := "", stdout := "", useSep := false } =
      Except.ok { w := "out\nout\n", stdout := "// ---\n", useSep := true }
    ∧ strContains "out\nout\n" "// ---" = false :=
  ⟨rfl, by decide⟩

/-- C7 (amended): each successfully formatted unit appends one block to
the returned buffer; a unit carrying a source identity begins its block
with a comment line containing only the base name of that identity (and
prints nothing to the standard output); a nameless unit that is not the
first instead emits the `// ---` separator line to the process standard
output, not to the returned string. -/
theorem C7_theorem (fmtN : Option Node → Except String String) (st : PrintSt)
    (nm : String) (n : Node) (st2 : PrintSt)
    (hok : formatOne fmtN st nm n = Except.ok st2) :
    (nm ≠ "" → (∃ body, st2.w = st.w ++ ("// " ++ filepathBase nm ++ "\n") ++ body)
      ∧ st2.stdout = st.stdout)
    ∧ (nm = "" → st.useSep = true →
      st2.stdout = st.stdout ++ "// ---\n" ∧ ∃ body, st2.w = st.w ++ body)
    ∧ (nm = "" → st.useSep = false →
      st2.stdout = st.stdout ∧ ∃ body, st2.w = st.w ++ body)
    ∧ st2.useSep = true := by
  have hspec : ∃ b, st2 = { w := (formatHeader st nm).w ++ b,
                            stdout := (formatHeader st nm).stdout,
                            useSep := true } := by
    unfold formatOne at hok
    cases htf : toFile (some n) with
    | panicked m =>
      rw [htf] at hok
      exact absurd hok (by simp)
    | file f =>
      rw [htf] at hok
      dsimp only at hok
      cases hfmt : fmtN f with
      | error e =>
        rw [hfmt] at hok
        exact absurd hok (by simp)
      | ok b =>
        rw [hfmt] at hok
        simp only [Except.ok.injEq] at hok
        exact ⟨b, hok.symm⟩
  obtain ⟨b, hb⟩ := hspec
  subst hb
  refine ⟨?_, ?_, ?_, rfl⟩
  · intro hnm
    constructor
    · exact ⟨b, by simp [formatHeader, hnm, String.append_assoc]⟩
    · simp [formatHeader, hnm]
  · intro hnm hus
    constructor
    · simp [formatHeader, hnm, hus]
    · exact ⟨b, by simp [formatHeader, hnm, hus]⟩
  · intro hnm hus
    constructor
    · simp [formatHeader, hnm, hus]
    · exact ⟨b, by simp [formatHeader, hnm, hus]⟩

/-- Witness for C7: a named unit prepends the base-name comment line to
its block and leaves the standard output untouched; a nameless non-first
unit sends the separator to the standard output; a nameless first unit
emits no separator at all. -/
theorem C7_witness :
    ((∃ body, ("w0// book.cue\nout\n" : String) = "w0" ++ ("// " ++ filepathBase "dir/book.cue" ++ "\n") ++ body)
      ∧ ("s0" : String) = "s0")
    ∧ (("s0// ---\n" : String) = "s0" ++ "// ---\n" ∧ ∃ body, ("w0out\n" : String) = "w0" ++ body)
    ∧ (("s0" : String) = "s0" ∧ ∃ body, ("w0out\n" : String) = "w0" ++ body) :=
  ⟨(( C7_theorem fmtDemo { w := "w0", stdout := "s0", useSep := true } "dir/book.cue"
      (Node.structLit RelPos.original [])
      { w := "w0// book.cue\nout\n", stdout := "s0", useSep := true } rfl).1
      (by decide)),
   (( C7_theorem fmtDemo { w := "w0", stdout := "s0", useSep := true } ""
      (Node.structLit RelPos.original [])
      { w := "w0out\n", stdout := "s0// ---\n", useSep := true } rfl).2.1 rfl rfl),
   (( C7_theorem fmtDemo { w := "w0", stdout := "s0", useSep := false } ""
      (Node.structLit RelPos.original [])
      { w := "w0out\n", stdout := "s0", useSep := true } rfl).2.2.1 rfl rfl)⟩

/-! ## Claim C9 -/

/-- A path ending in `.yaml` has extension `.yaml`. -/
theorem filepathExt_append_yaml (g : String) : filepathExt (g ++ ".yaml") = ".yaml" := by
  unfold filepathExt
  rw [show (g ++ ".yaml").toList = g.toList ++ ".yaml".toList from String.data_append g ".yaml"]
  rw [List.reverse_append]
  rfl

/-- A path ending in `.yml` has extension `.yml`. -/
theorem filepathExt_append_yml (g : String) : filepathExt (g ++ ".yml") = ".yml" := by
  unfold filepathExt
  rw [show (g ++ ".yml").toList = g.toList ++ ".yml".toList from String.data_append g ".yml"]
  rw [List.reverse_append]
  rfl

/-- A path ending in `.json` has extension `.json`. -/
theorem filepathExt_append_json (g : String) : filepathExt (g ++ ".json") = ".json" := by
  unfold filepathExt
  rw [show (g ++ ".json").toList = g.toList ++ ".json".toList from String.data_append g ".json"]
  rw [List.reverse_append]
  rfl

/-- Whatever non-empty string the extension scan returns is a literal
suffix of the scanned text. -/
theorem extScan_isSuffix (l : List Char) :
    ∀ (acc : List Char) (s : String), extScan acc l = s → s ≠ "" →
      ∃ pre : List Char, l.reverse ++ acc = pre ++ s.toList := by
  induction l with
  | nil =>
    intro acc s h hne
    exact absurd h.symm hne
  | cons c rest ih =>
    intro acc s h hne
    by_cases hsl : c = '/'
    · rw [show extScan acc (c :: rest) = "" by simp [extScan, hsl]] at h
      exact absurd h.symm hne
    · by_cases hdot : c = '.'
      · have hs : s = String.mk ('.' :: acc) := by
          rw [← h]; simp [extScan, hsl, hdot]
        refine ⟨rest.reverse, ?_⟩
        subst hdot
        simp [hs, List.append_assoc]
      · have h2 : extScan (c :: acc) rest = s := by
          rw [← h]; simp [extScan, hsl, hdot]
        obtain ⟨pre, hpre⟩ := ih (c :: acc) s h2 hne
        refine ⟨pre, ?_⟩
        simpa [List.append_assoc] using hpre

/-- A non-empty extension computed by `filepath.Ext` is a suffix of the
path. -/
theorem hasSuffix_of_ext (f s : String) (h : filepathExt f = s) (hne : s ≠ "") :
    hasSuffix f s := by
  obtain ⟨pre, hpre⟩ := extScan_isSuffix f.toList.reverse [] s (by simpa [filepathExt] using h) hne
  rw [List.reverse_reverse, List.append_nil] at hpre
  refine ⟨String.mk pre, ?_⟩
  apply String.ext
  rw [show (String.mk pre ++ s).data = pre ++ s.data from String.data_append _ s]
  exact hpre

/-- C9: the loader parses a `.yaml`/`.yml` file as YAML and a `.json`
file as JSON converted to YAML, regardless of content; for any file whose
name ends in none of those extensions the format is auto-detected from
content, taking the JSON route exactly when the bytes are valid JSON
text and the direct YAML route otherwise. -/
theorem C9_theorem {α : Type} (P : ParserOps α) (f b : String) :
    ((¬ hasSuffix f ".yaml" ∧ ¬ hasSuffix f ".yml" ∧ ¬ hasSuffix f ".json") →
      LoadFromFile P f b =
        if P.jsonValid b then JSONToYaml P b else P.yamlUnmarshal b)
    ∧ ((hasSuffix f ".yaml" ∨ hasSuffix f ".yml") →
      LoadFromFile P f b = P.yamlUnmarshal b)
    ∧ (hasSuffix f ".json" → LoadFromFile P f b = JSONToYaml P b) := by
  refine ⟨?_, ?_, ?_⟩
  · rintro ⟨h1, h2, h3⟩
    have e1 : filepathExt f ≠ ".yaml" := fun he => h1 (hasSuffix_of_ext f _ he (by decide))
    have e2 : filepathExt f ≠ ".yml" := fun he => h2 (hasSuffix_of_ext f _ he (by decide))
    have e3 : filepathExt f ≠ ".json" := fun he => h3 (hasSuffix_of_ext f _ he (by decide))
    simp [LoadFromFile, e1, e2, e3]
  · rintro (⟨g, rfl⟩ | ⟨g, rfl⟩)
    · simp [LoadFromFile, filepathExt_append_yaml g]
    · simp [LoadFromFile, filepathExt_append_yml g]
  · rintro ⟨g, rfl⟩
    simp [LoadFromFile, filepathExt_append_json g]

/-- Witness for C9: the extension-less name `Appfile` takes the
content-detected route, `vela.yaml` the YAML route, and `vela.json` the
JSON route. -/
theorem C9_witness :
    LoadFromFile parserDemo "Appfile" "1" =
      (if parserDemo.jsonValid "1" then JSONToYaml parserDemo "1"
        else parserDemo.yamlUnmarshal "1")
    ∧ LoadFromFile parserDemo "vela.yaml" "1" = parserDemo.yamlUnmarshal "1"
    ∧ LoadFromFile parserDemo "vela.json" "x" = JSONToYaml parserDemo "x" :=
  ⟨( C9_theorem parserDemo "Appfile" "1").1
    ⟨fun h => by
        obtain ⟨g, hg⟩ := h
        have hx := filepathExt_append_yaml g
        rw [← hg] at hx
        exact absurd hx (by decide),
      fun h => by
        obtain ⟨g, hg⟩ := h
        have hx := filepathExt_append_yml g
        rw [← hg] at hx
        exact absurd hx (by decide),
      fun h => by
        obtain ⟨g, hg⟩ := h
        have hx := filepathExt_append_json g
        rw [← hg] at hx
        exact absurd hx (by decide)⟩,
   ( C9_theorem parserDemo "vela.yaml" "1").2.1 (Or.inl ⟨"vela", rfl⟩),
   ( C9_theorem parserDemo "vela.json" "x").2.2 ⟨"vela", rfl⟩⟩

/-! ## Claim C2 -/

/-- The per-service trait scan accepts exactly when every trait-named
field of the service has a mapping value. -/
theorem svcTraitErr_eq_none_iff (traits : List String) (svcName : String)
    (svc : List (String × Value)) :
    svcTraitErr traits svcName svc = none ↔
      ∀ q ∈ svc, q.1 ∈ traits → isMap q.2 = true := by
  induction svc with
  | nil => simp [svcTraitErr]
  | cons q rest ih =>
    obtain ⟨fname, v⟩ := q
    by_cases hc : fname ∈ traits ∧ isMap v = false
    · simp only [svcTraitErr, if_pos hc]
      constructor
      · intro h; exact absurd h (by simp)
      · intro h
        have := h (fname, v) (by simp) hc.1
        rw [this] at hc
        exact absurd hc.2 (by simp)
    · simp only [svcTraitErr, if_neg hc]
      rw [ih]
      constructor
      · intro h q hq htr
        rcases List.mem_cons.mp hq with hq | hq
        · subst hq
          cases hmv : isMap v with
          | true => rfl
          | false => exact absurd ⟨htr, hmv⟩ hc
        · exact h q hq htr
      · intro h q hq htr
        exact h q (List.mem_cons_of_mem _ hq) htr

/-- When the per-service trait scan reports an error, the error is the
trait-must-be-map message for an actual trait-field violation of that
service. -/
theorem svcTraitErr_eq_some (traits : List String) (svcName : String)
    (svc : List (String × Value)) (st : String)
    (h : svcTraitErr traits svcName svc = some st) :
    ∃ fname v, (fname, v) ∈ svc ∧ fname ∈ traits ∧ isMap v = false
      ∧ st = traitErrMsg fname svcName := by
  induction svc with
  | nil => exact absurd h (by simp [svcTraitErr])
  | cons q rest ih =>
    obtain ⟨fname, v⟩ := q
    by_cases hc : fname ∈ traits ∧ isMap v = false
    · rw [svcTraitErr, if_pos hc] at h
      exact ⟨fname, v, by simp, hc.1, hc.2, (Option.some.injEq _ _).mp h |>.symm⟩
    · rw [svcTraitErr, if_neg hc] at h
      obtain ⟨f2, v2, hmem, htr, hmv, hst⟩ := ih h
      exact ⟨f2, v2, List.mem_cons_of_mem _ hmem, htr, hmv, hst⟩

/-- The services trait scan accepts exactly when every trait-named field
of every service has a mapping value. -/
theorem servicesTraitErr_eq_none_iff (traits : List String)
    (svcs : List (String × ServiceV)) :
    servicesTraitErr traits svcs = none ↔
      ∀ p ∈ svcs, ∀ q ∈ p.2, q.1 ∈ traits → isMap q.2 = true := by
  induction svcs with
  | nil => simp [servicesTraitErr]
  | cons p rest ih =>
    obtain ⟨svcName, svc⟩ := p
    cases hs : svcTraitErr traits svcName svc with
    | some e =>
      simp only [servicesTraitErr, hs]
      constructor
      · intro h; exact absurd h (by simp)
      · intro h
        have := (svcTraitErr_eq_none_iff traits svcName svc).mpr
          (fun q hq htr => h (svcName, svc) (by simp) q hq htr)
        rw [this] at hs
        exact absurd hs (by simp)
    | none =>
      simp only [servicesTraitErr, hs]
      rw [ih]
      constructor
      · intro h p hp
        rcases List.mem_cons.mp hp with hp | hp
        · subst hp
          exact (svcTraitErr_eq_none_iff traits svcName svc).mp hs
        · exact h p hp
      · intro h p hp
        exact h p (List.mem_cons_of_mem _ hp)

/-- When the services trait scan reports an error, the error is the
trait-must-be-map message for an actual trait-field violation of one of
the services. -/
theorem servicesTraitErr_eq_some (traits : List String)
    (svcs : List (String × ServiceV)) (st : String)
    (h : servicesTraitErr traits svcs = some st) :
    ∃ svcName svc fname v, (svcName, svc) ∈ svcs ∧ (fname, v) ∈ svc
      ∧ fname ∈ traits ∧ isMap v = false ∧ st = traitErrMsg fname svcName := by
  induction svcs with
  | nil => exact absurd h (by simp [servicesTraitErr])
  | cons p rest ih =>
    obtain ⟨svcName, svc⟩ := p
    cases hs : svcTraitErr traits svcName svc with
    | some e =>
      rw [servicesTraitErr, hs] at h
      obtain ⟨fname, v, hmem, htr, hmv, hst⟩ := svcTraitErr_eq_some traits svcName svc e hs
      exact ⟨svcName, svc, fname, v, by simp, hmem, htr, hmv,
        by rw [← hst]; exact ((Option.some.injEq _ _).mp h).symm⟩
    | none =>
      rw [servicesTraitErr, hs] at h
      obtain ⟨s2, sv2, f2, v2, hmem, hmem2, htr, hmv, hst⟩ := ih h
      exact ⟨s2, sv2, f2, v2, List.mem_cons_of_mem _ hmem, hmem2, htr, hmv, hst⟩

/-- C2 (validator modelled from the spec, checked against the
expectations of `TestApplication`): validation succeeds exactly when the
name is non-empty, at least one service is declared, and every
trait-named field of every service has a mapping value; the three failure
cases report the name-required error, the service-required error, and the
trait-must-be-map error (naming the offending trait and service, the
latter in single quotes) respectively. -/
theorem C2_theorem (traits : List String) (app : AppFileV) :
    (validate traits app = none ↔
      (app.name ≠ "" ∧ app.services ≠ [] ∧
        ∀ p ∈ app.services, ∀ q ∈ p.2, q.1 ∈ traits → isMap q.2 = true))
    ∧ (app.name = "" → validate traits app = some "name is required")
    ∧ (app.name ≠ "" → app.services = [] →
      validate traits app = some "at least one service is required")
    ∧ (∀ st, app.name ≠ "" → app.services ≠ [] →
      validate traits app = some st →
      ∃ svcName traitName,
        (∃ svc v, (svcName, svc) ∈ app.services ∧ (traitName, v) ∈ svc
          ∧ traitName ∈ traits ∧ isMap v = false)
        ∧ st = traitErrMsg traitName svcName) := by
  refine ⟨?_, ?_, ?_, ?_⟩
  · by_cases hn : app.name = ""
    · simp [validate, hn]
    · by_cases hs : app.services = []
      · simp [validate, hn, hs]
      · have hlen : app.services.length ≠ 0 := by
          simpa [List.length_eq_zero] using hs
        simp only [validate, if_neg hn, if_neg hlen]
        rw [servicesTraitErr_eq_none_iff]
        simp [hn, hs]
  · intro hn
    simp [validate, hn]
  · intro hn hs
    simp [validate, hn, hs]
  · intro st hn hs hv
    have hlen : app.services.length ≠ 0 := by
      simpa [List.length_eq_zero] using hs
    rw [validate, if_neg hn, if_neg hlen] at hv
    obtain ⟨svcName, svc, fname, v, hmem, hmem2, htr, hmv, hst⟩ :=
      servicesTraitErr_eq_some traits app.services st hv
    exact ⟨svcName, fname, ⟨svc, v, hmem, hmem2, htr, hmv⟩, hst⟩

/-- Witness for C2: an unnamed descriptor reports the name-required
error; a named descriptor without services reports the service-required
error; a descriptor binding the known trait `autoscaling` to the scalar
10 in service `frontend` reports the trait-must-be-map error; and the
well-formed variant validates cleanly. -/
theorem C2_witness :
    validate ["autoscaling"] { name := "", services := [] } = some "name is required"
    ∧ validate ["autoscaling"] { name := "myapp", services := [] } =
        some "at least one service is required"
    ∧ (∃ svcName traitName,
        (∃ svc v,
          (svcName, svc) ∈ [("frontend", [("autoscaling", Value.vnum 10)])] ∧
          (traitName, v) ∈ svc ∧ traitName ∈ ["autoscaling"] ∧ isMap v = false)
        ∧ traitErrMsg "autoscaling" "frontend" = traitErrMsg traitName svcName)
    ∧ validate ["autoscaling"]
        { name := "myapp", services := [("frontend", [("image", Value.vstr "x")])] } = none :=
  ⟨( C2_theorem ["autoscaling"] { name := "", services := [] }).2.1 rfl,
   ( C2_theorem ["autoscaling"] { name := "myapp", services := [] }).2.2.1 (by decide) rfl,
   ( C2_theorem ["autoscaling"]
      { name := "myapp", services := [("frontend", [("autoscaling", Value.vnum 10)])] }).2.2.2
      (traitErrMsg "autoscaling" "frontend") (by decide)
      (List.cons_ne_nil _ _) rfl,
   ( C2_theorem ["autoscaling"]
      { name := "myapp", services := [("frontend", [("image", Value.vstr "x")])] }).1.mpr
      ⟨by decide, List.cons_ne_nil _ _, by decide⟩⟩

/-! ## Renderer lemmas -/

/-- The configuration branch only ever contributes ConfigMap objects,
never a health scope. -/
theorem renderServiceConfig_no_health (ctx : RenderCtx)
    (envName appName svcName : String) (svc : Service) (objs1 : List OamObject)
    (h : renderServiceConfig ctx envName appName svcName svc = Except.ok objs1) :
    ∀ o ∈ objs1, isHealthObj o = false := by
  unfold renderServiceConfig at h
  by_cases hc : svc.userConfigName = ""
  · rw [if_pos hc] at h
    simp only [Except.ok.injEq] at h
    subst h
    intro o ho
    cases ho
  · rw [if_neg hc] at h
    cases h1 : ctx.getConfigData svc.userConfigName envName with
    | error e =>
      rw [h1] at h
      exact absurd h (by simp)
    | ok configData =>
      rw [h1] at h
      dsimp only at h
      cases h2 : ctx.decodeConfigFormat configData with
      | error e =>
        rw [h2] at h
        exact absurd h (by simp)
      | ok decodedData =>
        rw [h2] at h
        dsimp only at h
        cases h3 : ctx.toConfigMap (ctx.genConfigMapName appName svcName svc.userConfigName)
            envName decodedData with
        | error e =>
          rw [h3] at h
          exact absurd h (by simp)
        | ok cm =>
          rw [h3] at h
          simp only [Except.ok.injEq] at h
          subst h
          intro o ho
          rw [List.mem_singleton] at ho
          subst ho
          rfl

/-- Every assistant object collected by the per-service loop is a
ConfigMap object, never a health scope. -/
theorem buildServices_objs_config (ctx : RenderCtx) (envName appName : String)
    (svcs : List (String × Service)) (objs : List OamObject)
    (comps : List ApplicationComponent)
    (h : buildServices ctx envName appName svcs = Except.ok (objs, comps)) :
    ∀ o ∈ objs, isHealthObj o = false := by
  induction svcs generalizing objs comps with
  | nil =>
    simp only [buildServices, Except.ok.injEq, Prod.mk.injEq] at h
    obtain ⟨hobjs, _⟩ := h
    subst hobjs
    intro o ho
    cases ho
  | cons p rest ih =>
    obtain ⟨svcName, svc⟩ := p
    simp only [buildServices] at h
    cases hcfg : renderServiceConfig ctx envName appName svcName svc with
    | error e =>
      rw [hcfg] at h
      exact absurd h (by simp)
    | ok objs1 =>
      rw [hcfg] at h
      dsimp only at h
      cases hrc : ctx.renderComponent svcName svc with
      | error e =>
        rw [hrc] at h
        exact absurd h (by simp)
      | ok comp =>
        rw [hrc] at h
        dsimp only at h
        cases hrest : buildServices ctx envName appName rest with
        | error e =>
          rw [hrest] at h
          exact absurd h (by simp)
        | ok pr =>
          obtain ⟨objsr, compsr⟩ := pr
          rw [hrest] at h
          dsimp only at h
          simp only [Except.ok.injEq, Prod.mk.injEq] at h
          obtain ⟨hobjs, _⟩ := h
          subst hobjs
          intro o ho
          rcases List.mem_append.mp ho with ho | ho
          · exact renderServiceConfig_no_health ctx envName appName svcName svc objs1 hcfg o ho
          · exact ih objsr compsr hrest o ho

/-- When the component renderer names each component after its service,
the components collected by the per-service loop carry the service names
in enumeration order. -/
theorem buildServices_names (ctx : RenderCtx) (envName appName : String)
    (hname : ∀ svcName svc comp,
      ctx.renderComponent svcName svc = Except.ok comp → comp.name = svcName)
    (svcs : List (String × Service)) (objs : List OamObject)
    (comps : List ApplicationComponent)
    (h : buildServices ctx envName appName svcs = Except.ok (objs, comps)) :
    comps.map (fun c => c.name) = svcs.map (fun p => p.1) := by
  induction svcs generalizing objs comps with
  | nil =>
    simp only [buildServices, Except.ok.injEq, Prod.mk.injEq] at h
    obtain ⟨_, hcomps⟩ := h
    subst hcomps
    rfl
  | cons p rest ih =>
    obtain ⟨svcName, svc⟩ := p
    simp only [buildServices] at h
    cases hcfg : renderServiceConfig ctx envName appName svcName svc with
    | error e =>
      rw [hcfg] at h
      exact absurd h (by simp)
    | ok objs1 =>
      rw [hcfg] at h
      dsimp only at h
      cases hrc : ctx.renderComponent svcName svc with
      | error e =>
        rw [hrc] at h
        exact absurd h (by simp)
      | ok comp =>
        rw [hrc] at h
        dsimp only at h
        cases hrest : buildServices ctx envName appName rest with
        | error e =>
          rw [hrest] at h
          exact absurd h (by simp)
        | ok pr =>
          obtain ⟨objsr, compsr⟩ := pr
          rw [hrest] at h
          dsimp only at h
          simp only [Except.ok.injEq, Prod.mk.injEq] at h
          obtain ⟨_, hcomps⟩ := h
          subst hcomps
          simp only [List.map_cons]
          rw [hname svcName svc comp hrc, ih objsr compsr hrest]

/-- If some service of the enumeration fails, the per-service loop fails. -/
theorem buildServices_fails (ctx : RenderCtx) (envName appName : String)
    (svcs : List (String × Service)) (svcName : String) (svc : Service)
    (hmem : (svcName, svc) ∈ svcs)
    (hfail : serviceRenderFails ctx envName appName svcName svc) :
    ∃ e, buildServices ctx envName appName svcs = Except.error e := by
  induction svcs with
  | nil => cases hmem
  | cons p rest ih =>
    obtain ⟨sn0, sv0⟩ := p
    rcases List.mem_cons.mp hmem with heq | hmem2
    · rw [Prod.mk.injEq] at heq
      obtain ⟨h1, h2⟩ := heq
      subst h1
      subst h2
      cases hcfg : renderServiceConfig ctx envName appName svcName svc with
      | error e => exact ⟨e, by simp [buildServices, hcfg]⟩
      | ok objs1 =>
        rcases hfail with ⟨e, he⟩ | ⟨e, he⟩
        · rw [hcfg] at he
          exact absurd he (by simp)
        · exact ⟨e, by simp [buildServices, hcfg, he]⟩
    · cases hcfg : renderServiceConfig ctx envName appName sn0 sv0 with
      | error e => exact ⟨e, by simp [buildServices, hcfg]⟩
      | ok objs1 =>
        cases hrc : ctx.renderComponent sn0 sv0 with
        | error e => exact ⟨e, by simp [buildServices, hcfg, hrc]⟩
        | ok comp =>
          obtain ⟨e, he⟩ := ih hmem2
          exact ⟨e, by simp [buildServices, hcfg, hrc, he]⟩

/-! ## Claim C1 -/

/-- C1, as stated, is refuted at a one-service appfile: the render call
synthesizes the single health scope named `myapp-default-health`, but its
workload-reference list is empty — it references no rendered component by
name, even though one component (`frontend`) was rendered; instead that
component is pointed at the health scope through its scopes extension. -/
theorem C1_counterexample :
    BuildOAMApplication ctxDemo envDemo afDemo =
      Except.ok
        ({ name := "myapp", nspace := "default-ns",
           apiVersion := applicationAPIVersion, kind := applicationKind,
           components := [{ name := "frontend", settings := "",
                            scopes := some (scopeRaw (FormatDefaultHealthScopeName "myapp")) }] },
          [OamObject.healthScope
            { apiVersion := healthScopeAPIVersion, kind := healthScopeKind,
              name := FormatDefaultHealthScopeName "myapp",
              nspace := "default-ns", workloadReferences := [] }])
    ∧ ({ apiVersion := healthScopeAPIVersion, kind := healthScopeKind,
         name := FormatDefaultHealthScopeName "myapp",
         nspace := "default-ns", workloadReferences := [] } : HealthScope).workloadReferences = []
    ∧ [({ name := "frontend", settings := "",
          scopes := some (scopeRaw (FormatDefaultHealthScopeName "myapp")) } :
        ApplicationComponent)].map (fun c => c.name) = ["frontend"] :=
  ⟨rfl, rfl, rfl⟩

/-- C1 (amended): a successful render emits exactly one health scope among
its assistant objects, named by concatenating the application name with
`-default-health` and placed in the environment namespace; its
workload-reference list is created empty, and instead every rendered
component is annotated, through its scopes extension, to reference the
health scope by name. -/
theorem C1_theorem (ctx : RenderCtx) (env : EnvMeta) (af : AppFileM)
    (app : Application) (objs : List OamObject)
    (hok : BuildOAMApplication ctx env af = Except.ok (app, objs)) :
    objs.countP isHealthObj = 1
    ∧ ∃ hs : HealthScope,
        OamObject.healthScope hs ∈ objs
        ∧ hs.name = af.name ++ "-default-health"
        ∧ hs.nspace = env.nspace
        ∧ hs.workloadReferences = []
        ∧ ∀ c ∈ app.components, c.scopes = some (scopeRaw hs.name) := by
  unfold BuildOAMApplication at hok
  cases hbs : buildServices ctx env.name af.name af.services with
  | error e =>
    rw [hbs] at hok
    exact absurd hok (by simp)
  | ok pr =>
    obtain ⟨objs0, comps⟩ := pr
    rw [hbs] at hok
    dsimp only [addDefaultHealthScopeToApplication] at hok
    simp only [Except.ok.injEq, Prod.mk.injEq] at hok
    obtain ⟨happ, hobjs⟩ := hok
    subst happ
    subst hobjs
    have h0 : objs0.countP isHealthObj = 0 :=
      List.countP_eq_zero.mpr (fun o ho => by
        rw [buildServices_objs_config ctx env.name af.name af.services objs0 comps hbs o ho]
        simp)
    constructor
    · rw [List.countP_append, h0]
      rfl
    · refine ⟨{ apiVersion := healthScopeAPIVersion, kind := healthScopeKind,
                name := FormatDefaultHealthScopeName af.name,
                nspace := env.nspace, workloadReferences := [] },
        List.mem_append_right _ (by simp), rfl, rfl, rfl, ?_⟩
      intro c hc
      rw [List.mem_map] at hc
      obtain ⟨c0, _, hco⟩ := hc
      rw [← hco]

/-- Witness for C1: the assistant objects of a successful concrete render
contain exactly one health scope. -/
theorem C1_witness :
    ([OamObject.healthScope
        { apiVersion := healthScopeAPIVersion, kind := healthScopeKind,
          name := FormatDefaultHealthScopeName "myapp",
          nspace := "default-ns", workloadReferences := [] }] :
      List OamObject).countP isHealthObj = 1 :=
  ( C1_theorem ctxDemo envDemo afDemo
    { name := "myapp", nspace := "default-ns",
      apiVersion := applicationAPIVersion, kind := applicationKind,
      components := [{ name := "frontend", settings := "",
                       scopes := some (scopeRaw (FormatDefaultHealthScopeName "myapp")) }] }
    [OamObject.healthScope
      { apiVersion := healthScopeAPIVersion, kind := healthScopeKind,
        name := FormatDefaultHealthScopeName "myapp",
        nspace := "default-ns", workloadReferences := [] }]
    rfl).1

/-! ## Claim C3 -/

/-- C3, as stated, is refuted: two enumerations of the same services map
(permutations of each other with the same distinct keys) render to
structurally different results — the components appear in enumeration
order, which for a Go map is not fixed across invocations, rather than in
a deterministic lexicographic order. -/
theorem C3_counterexample :
    ([("a", svcDemo), ("b", svcDemo)] : List (String × Service)).Perm
        [("b", svcDemo), ("a", svcDemo)]
    ∧ builtNames (BuildOAMApplication ctxDemo envDemo
        { name := "app", services := [("a", svcDemo), ("b", svcDemo)] }) = ["a", "b"]
    ∧ builtNames (BuildOAMApplication ctxDemo envDemo
        { name := "app", services := [("b", svcDemo), ("a", svcDemo)] }) = ["b", "a"]
    ∧ BuildOAMApplication ctxDemo envDemo
        { name := "app", services := [("a", svcDemo), ("b", svcDemo)] } ≠
      BuildOAMApplication ctxDemo envDemo
        { name := "app", services := [("b", svcDemo), ("a", svcDemo)] } :=
  ⟨by decide, rfl, rfl, fun h => absurd (congrArg builtNames h) (by decide)⟩

/-- C3 (amended): rendering is a pure function of the descriptor, the
collaborators and the service enumeration order, and the per-service
components appear exactly in that enumeration order (when the component
renderer names components after their services) — the order produced by
ranging over the Go services map, which is not guaranteed lexicographic
or stable across invocations. -/
theorem C3_theorem (ctx : RenderCtx) (env : EnvMeta) (af : AppFileM)
    (app : Application) (objs : List OamObject)
    (hname : ∀ svcName svc comp,
      ctx.renderComponent svcName svc = Except.ok comp → comp.name = svcName)
    (hok : BuildOAMApplication ctx env af = Except.ok (app, objs)) :
    app.components.map (fun c => c.name) = af.services.map (fun p => p.1) := by
  unfold BuildOAMApplication at hok
  cases hbs : buildServices ctx env.name af.name af.services with
  | error e =>
    rw [hbs] at hok
    exact absurd hok (by simp)
  | ok pr =>
    obtain ⟨objs0, comps⟩ := pr
    rw [hbs] at hok
    dsimp only [addDefaultHealthScopeToApplication] at hok
    simp only [Except.ok.injEq, Prod.mk.injEq] at hok
    obtain ⟨happ, _⟩ := hok
    subst happ
    have hnames := buildServices_names ctx env.name af.name hname af.services objs0 comps hbs
    simpa [List.map_map, Function.comp] using hnames

/-- Witness for C3: on a concrete successful render the component names
follow the service enumeration order. -/
theorem C3_witness :
    ({ name := "myapp", nspace := "default-ns",
       apiVersion := applicationAPIVersion, kind := applicationKind,
       components := [{ name := "frontend", settings := "",
                        scopes := some (scopeRaw (FormatDefaultHealthScopeName "myapp")) }] } :
      Application).components.map (fun c => c.name) = afDemo.services.map (fun p => p.1) :=
  C3_theorem ctxDemo envDemo afDemo
    { name := "myapp", nspace := "default-ns",
      apiVersion := applicationAPIVersion, kind := applicationKind,
      components := [{ name := "frontend", settings := "",
                       scopes := some (scopeRaw (FormatDefaultHealthScopeName "myapp")) }] }
    [OamObject.healthScope
      { apiVersion := healthScopeAPIVersion, kind := healthScopeKind,
        name := FormatDefaultHealthScopeName "myapp",
        nspace := "default-ns", workloadReferences := [] }]
    (fun svcName svc comp h => by
      simp only [ctxDemo, Except.ok.injEq] at h
      rw [← h])
    rfl

/-! ## Claim C4 -/

/-- C4: rendering is all-or-nothing: if any service of the appfile fails
(configuration-store fetch, configuration decoding, ConfigMap
materialization, or component rendering), the whole render call returns
an error and never a partial application or assistant-object list. -/
theorem C4_theorem (ctx : RenderCtx) (env : EnvMeta) (af : AppFileM)
    (svcName : String) (svc : Service)
    (hmem : (svcName, svc) ∈ af.services)
    (hfail : serviceRenderFails ctx env.name af.name svcName svc) :
    (∃ e, BuildOAMApplication ctx env af = Except.error e)
    ∧ ∀ app objs, BuildOAMApplication ctx env af ≠ Except.ok (app, objs) := by
  obtain ⟨e, he⟩ :=
    buildServices_fails ctx env.name af.name af.services svcName svc hmem hfail
  have herr : BuildOAMApplication ctx env af = Except.error e := by
    simp [BuildOAMApplication, he]
  constructor
  · exact ⟨e, herr⟩
  · intro app objs hok
    rw [herr] at hok
    exact absurd hok (by simp)

/-- Witness for C4: with a component renderer that always fails, the
whole render call on a one-service appfile returns an error. -/
theorem C4_witness :
    ∃ e, BuildOAMApplication ctxFail envDemo afDemo = Except.error e :=
  ( C4_theorem ctxFail envDemo afDemo "frontend" svcDemo
    (List.mem_singleton.mpr rfl)
    (Or.inr ⟨"render failed", rfl⟩)).1

end Spec2Proof
